import Mathlib

/-!
Verification of the lexical front-end of the pam-args library: the
tokenizer (`src/tokenizer.rs`), the key-value format detector and the
type-conversion chain (`src/conversion.rs`).  Strings are modelled as
`List Char`; fallible Rust functions returning `Result<T, Error>` are
modelled as `Except Error T`.
-/

namespace PamArgs

/-- The error enum of `src/error.rs` (`pub enum Error`).  Each variant
carries the formatted message / offending fragment as a character list. -/
inductive Error where
  | RequiredArgMissing (msg : List Char)
  | MutuallyExclusiveArgs (a b : List Char)
  | InvalidKeyValue (msg : List Char)
  | UnrecognizedArg (msg : List Char)
  | InvalidIntValue (msg : List Char)
  | InvalidBoolValue (msg : List Char)
  | DependencyNotMet (a b : List Char)
  | InvalidValue (a b : List Char)
  | DuplicateArgName (msg : List Char)
  | UnclosedDelimiter (msg : List Char)
  | NestedBrackets (msg : List Char)
  | InvalidInput (msg : List Char)
  | UnexpectedError (msg : List Char)
deriving DecidableEq, Repr

/-- Scanner state of `src/tokenizer.rs` (`enum TokenizerState`). -/
inductive TokenizerState where
  | normal
  | inSingleQuote
  | inDoubleQuote
  | inBracket
  | escapeSequence
deriving DecidableEq, Repr

/-- `TokenizerConfig` of `src/tokenizer.rs`. -/
structure TokenizerConfig where
  escape_char : Char
  single_quote : Char
  double_quote : Char
  open_bracket : Char
  close_bracket : Char
  delimiter : Char
deriving DecidableEq, Repr

/-- `impl Default for TokenizerConfig` of `src/tokenizer.rs`. -/
def TokenizerConfig.default : TokenizerConfig :=
  ⟨'\\', '\'', '"', '[', ']', ','⟩

/-- `TokenizationResult` of `src/tokenizer.rs`. -/
structure TokenizationResult where
  tokens : List (List Char)
  has_bracketed_content : Bool
deriving DecidableEq, Repr

/-- The mutable loop state of `Tokenizer::split_by_commas`:
the scanner state, the token under construction (`current`) and the
completed tokens (`result`). -/
structure ScanAcc where
  state : TokenizerState
  current : List Char
  result : List (List Char)
deriving DecidableEq, Repr

/-- One iteration of the character loop in `Tokenizer::split_by_commas`
(`src/tokenizer.rs` lines 334-397).  The match arms are translated in
source order: for `Normal` the guards test escape, single quote, double
quote, then delimiter; `EscapeSequence` consumes any character;
`InBracket` raises the nested-brackets error.  `content` is only used
for that error message. -/
def stepChar (cfg : TokenizerConfig) (content : List Char) (acc : ScanAcc) (c : Char) :
    Except Error ScanAcc :=
  match acc.state with
  | .normal =>
      if c = cfg.escape_char then .ok ⟨.escapeSequence, acc.current ++ [c], acc.result⟩
      else if c = cfg.single_quote then .ok ⟨.inSingleQuote, acc.current ++ [c], acc.result⟩
      else if c = cfg.double_quote then .ok ⟨.inDoubleQuote, acc.current ++ [c], acc.result⟩
      else if c = cfg.delimiter then .ok ⟨.normal, [], acc.result ++ [acc.current]⟩
      else .ok ⟨.normal, acc.current ++ [c], acc.result⟩
  | .escapeSequence => .ok ⟨.normal, acc.current ++ [c], acc.result⟩
  | .inSingleQuote =>
      if c = cfg.escape_char then .ok ⟨.escapeSequence, acc.current ++ [c], acc.result⟩
      else if c = cfg.single_quote then .ok ⟨.normal, acc.current ++ [c], acc.result⟩
      else .ok ⟨.inSingleQuote, acc.current ++ [c], acc.result⟩
  | .inDoubleQuote =>
      if c = cfg.escape_char then .ok ⟨.escapeSequence, acc.current ++ [c], acc.result⟩
      else if c = cfg.double_quote then .ok ⟨.normal, acc.current ++ [c], acc.result⟩
      else .ok ⟨.inDoubleQuote, acc.current ++ [c], acc.result⟩
  | .inBracket =>
      .error (.NestedBrackets ("Nested brackets are not supported: ".toList ++ content))

/-- The character loop of `Tokenizer::split_by_commas`, started from the
`Normal` state with empty buffers. -/
def runScan (cfg : TokenizerConfig) (content : List Char) : Except Error ScanAcc :=
  content.foldlM (stepChar cfg content) ⟨.normal, [], []⟩

/-- `Tokenizer::split_by_commas` (`src/tokenizer.rs` lines 320-429):
empty content yields one empty token; otherwise the content is scanned
and the terminal state decides between emitting the tokens (with the
trailing-delimiter empty token) and the unclosed-delimiter errors. -/
def splitByCommas (cfg : TokenizerConfig) (content : List Char) :
    Except Error (List (List Char)) :=
  if content.isEmpty then .ok [[]]
  else
    match runScan cfg content with
    | .error e => .error e
    | .ok acc =>
      match acc.state with
      | .normal =>
          let res1 := if !acc.current.isEmpty || acc.result.isEmpty
                      then acc.result ++ [acc.current] else acc.result
          let res2 := if content.getLast? = some cfg.delimiter then res1 ++ [[]] else res1
          .ok res2
      | .inSingleQuote =>
          .error (.UnclosedDelimiter ("Unclosed single quote in: ".toList ++ content))
      | .inDoubleQuote =>
          .error (.UnclosedDelimiter ("Unclosed double quote in: ".toList ++ content))
      | .inBracket =>
          .error (.UnclosedDelimiter ("Unclosed bracket in: ".toList ++ content))
      | .escapeSequence =>
          .error (.UnclosedDelimiter ("Trailing escape character in: ".toList ++ content))

/-- `Tokenizer::extract_bracket_content` (`src/tokenizer.rs` lines
289-309): strip the outer brackets and reject a content that ends with
the escape character. -/
def extractBracketContent (cfg : TokenizerConfig) (bracketed : List Char) :
    Except Error (List Char) :=
  if bracketed.head? = some cfg.open_bracket ∧ bracketed.getLast? = some cfg.close_bracket then
    let content := (bracketed.drop 1).dropLast
    if content.getLast? = some cfg.escape_char then
      .error (.InvalidInput ("Trailing escape character in: ".toList ++ bracketed))
    else
      .ok content
  else
    .error (.InvalidInput ("Input must start with ".toList ++ ['\''] ++ [cfg.open_bracket] ++
      ['\''] ++ " and end with ".toList ++ ['\''] ++ [cfg.close_bracket] ++ ['\'']))

/-- `Tokenizer::process_bracketed` (`src/tokenizer.rs` lines 267-274). -/
def processBracketed (cfg : TokenizerConfig) (bracketed : List Char) :
    Except Error (List (List Char)) :=
  match extractBracketContent cfg bracketed with
  | .ok content => splitByCommas cfg content
  | .error e => .error e

/-- `Tokenizer::tokenize_arg` (`src/tokenizer.rs` lines 167-193). -/
def tokenizeArg (cfg : TokenizerConfig) (arg : List Char) :
    Except Error TokenizationResult :=
  if arg.head? = some cfg.open_bracket then
    if arg.getLast? = some cfg.close_bracket then
      match processBracketed cfg arg with
      | .ok tokens => .ok ⟨tokens, true⟩
      | .error e => .error e
    else
      .error (.UnclosedDelimiter ("Unclosed bracket in: ".toList ++ arg))
  else
    .ok ⟨[arg], false⟩

/-- `AllowedKeyValueFormats` of `src/args.rs` (lines 84-99). -/
inductive AllowedKeyValueFormats where
  | KeyValue
  | KeyOnly
  | KeyEquals
  | KeyAll
deriving DecidableEq, Repr

/-- Modelled from the spec: `AllowedKeyValueFormats::is_compatible_with` is
called by `format::validate` (`src/conversion.rs` line 207) and by the
tests, but its definition is not among the provided sources.  Spec §3:
"Compatibility is a reflexive relation (`KeyValue` only compatible with
`KeyValue`) widened by `KeyAll` (compatible with all three)". -/
def AllowedKeyValueFormats.is_compatible_with (a b : AllowedKeyValueFormats) : Bool :=
  a == b || a == .KeyAll || b == .KeyAll

/-- Modelled from the spec: `AllowedKeyValueFormats::is_compatible_with_any`
is called by `format::validate` but not defined among the provided sources;
spec §4.2 says validation "succeeds iff the detected format is compatible
with at least one entry of `allowed_formats`". -/
def AllowedKeyValueFormats.is_compatible_with_any (a : AllowedKeyValueFormats)
    (formats : List AllowedKeyValueFormats) : Bool :=
  formats.any fun b => a.is_compatible_with b

/-- Rust `Debug` rendering of one format tag, as used by the `{:?}`
placeholders of the `format::validate` error message. -/
def AllowedKeyValueFormats.debugFmt : AllowedKeyValueFormats → List Char
  | .KeyValue => "KeyValue".toList
  | .KeyOnly => "KeyOnly".toList
  | .KeyEquals => "KeyEquals".toList
  | .KeyAll => "KeyAll".toList

/-- Rust `Debug` rendering of a vector of format tags. -/
def debugFmtList (l : List AllowedKeyValueFormats) : List Char :=
  '[' :: List.intercalate ", ".toList (l.map AllowedKeyValueFormats.debugFmt) ++ [']']

/-- `FormatDetectionResult` of `src/conversion.rs` (lines 14-25). -/
structure FormatDetectionResult where
  format : AllowedKeyValueFormats
  key : List Char
  value : Option (List Char)
deriving DecidableEq, Repr

/-- Helper realizing `input.find('=')` together with the two slices
`input[..pos]` and `input[pos+1..]`: splits a character list at the first
occurrence of the equals sign. -/
def splitAtFirstEq : List Char → Option (List Char × List Char)
  | [] => none
  | c :: rest =>
      if c = '=' then some ([], rest)
      else
        match splitAtFirstEq rest with
        | some (k, v) => some (c :: k, v)
        | none => none

/-- `format::detect` (`src/conversion.rs` lines 160-190). -/
def detect (input : List Char) : FormatDetectionResult :=
  match splitAtFirstEq input with
  | some (key, value_part) =>
      if value_part.isEmpty then ⟨.KeyEquals, key, some []⟩
      else ⟨.KeyValue, key, some value_part⟩
  | none => ⟨.KeyOnly, input, none⟩

/-- `format::validate` (`src/conversion.rs` lines 202-215). -/
def validate (detected : FormatDetectionResult)
    (allowed_formats : List AllowedKeyValueFormats) : Except Error Unit :=
  if detected.format.is_compatible_with_any allowed_formats then .ok ()
  else
    .error (.InvalidKeyValue ("Invalid format for key ".toList ++ ['\''] ++ detected.key ++
      ['\''] ++ ": expected one of ".toList ++ debugFmtList allowed_formats ++
      ", got ".toList ++ detected.format.debugFmt))

/-- `ConverterConfig` of `src/conversion.rs` (lines 55-66). -/
structure ConverterConfig where
  trim_whitespace : Bool
  handle_empty : Bool
  recognize_none_values : Bool
deriving DecidableEq, Repr

/-- `impl Default for ConverterConfig` (`src/conversion.rs` lines 85-93). -/
def ConverterConfig.default : ConverterConfig := ⟨true, true, true⟩

/-- `ConversionConfig` of `src/conversion.rs` (lines 68-82). -/
structure ConversionConfig where
  case_insensitive_booleans : Bool
  true_values : List (List Char)
  false_values : List (List Char)
  none_values : List (List Char)
deriving DecidableEq, Repr

/-- `impl Default for ConversionConfig` (`src/conversion.rs` lines 96-105). -/
def ConversionConfig.default : ConversionConfig :=
  ⟨true,
   ["true".toList, "yes".toList, "1".toList, "on".toList],
   ["false".toList, "no".toList, "0".toList, "off".toList],
   ["none".toList, "null".toList, "".toList]⟩

/-- Rust `str::to_lowercase`, per character (the inputs of interest are
ASCII, where `Char.toLower` agrees with Rust). -/
def lowercase (s : List Char) : List Char := s.map Char.toLower

/-- Rust `str::trim`: remove leading and trailing whitespace. -/
def trim (s : List Char) : List Char :=
  ((s.dropWhile Char.isWhitespace).reverse.dropWhile Char.isWhitespace).reverse

/-- Digit-sequence parse used by `str::parse::<i32>`: at least one ASCII
digit and nothing else. -/
def parseDigits (s : List Char) : Option Nat :=
  if s.isEmpty then none
  else if s.all Char.isDigit then
    some (s.foldl (fun n c => n * 10 + (c.toNat - '0'.toNat)) 0)
  else none

/-- Rust `str::parse::<i32>`: optional sign, at least one digit, value
within the 32-bit signed range. -/
def parseI32 (s : List Char) : Option Int :=
  match s with
  | '+' :: rest =>
      (parseDigits rest).bind fun n =>
        if n ≤ 2147483647 then some (n : Int) else none
  | '-' :: rest =>
      (parseDigits rest).bind fun n =>
        if n ≤ 2147483648 then some (-(n : Int)) else none
  | _ =>
      (parseDigits s).bind fun n =>
        if n ≤ 2147483647 then some (n : Int) else none

/-- `impl FromArgValue for String` (`src/conversion.rs` lines 219-223). -/
def stringFromArgValue (value : List Char) (_config : Option ConverterConfig) :
    Except Error (List Char) :=
  .ok value

/-- `impl FromArgValue for i32` (`src/conversion.rs` lines 225-231). -/
def i32FromArgValue (value : List Char) (_config : Option ConverterConfig) :
    Except Error Int :=
  match parseI32 value with
  | some n => .ok n
  | none => .error (.InvalidIntValue value)

/-- `impl FromArgValue for bool` (`src/conversion.rs` lines 233-258). -/
def boolFromArgValue (value : List Char) (_config : Option ConverterConfig) :
    Except Error Bool :=
  let conversion_config := ConversionConfig.default
  let compare_value :=
    if conversion_config.case_insensitive_booleans then lowercase value else value
  if conversion_config.true_values.any (fun v => v == compare_value) then .ok true
  else if conversion_config.false_values.any (fun v => v == compare_value) then .ok false
  else .error (.InvalidBoolValue value)

/-- `impl FromArgValue for char` (`src/conversion.rs` lines 260-275). -/
def charFromArgValue (value : List Char) (_config : Option ConverterConfig) :
    Except Error Char :=
  match value with
  | [c] => .ok c
  | _ =>
      .error (.InvalidInput ("Expected a single character, got ".toList ++ ['\''] ++ value ++
        ['\''] ++ " (".toList ++ (toString value.length).toList ++ " characters)".toList))

/-- `impl FromArgValue for Option<T>` (`src/conversion.rs` lines 278-305),
parametrized by the inner type's conversion function. -/
def optionFromArgValue {α : Type} (innerConv : List Char → Option ConverterConfig → Except Error α)
    (value : List Char) (config : Option ConverterConfig) : Except Error (Option α) :=
  let cfg := config.getD ConverterConfig.default
  if cfg.handle_empty && value.isEmpty then .ok none
  else if cfg.recognize_none_values &&
      ConversionConfig.default.none_values.contains (lowercase value) then .ok none
  else
    match innerConv value (some cfg) with
    | .ok converted => .ok (some converted)
    | .error e => .error e

/-- `converter::convert` (`src/conversion.rs` lines 343-364), parametrized
by the target type's conversion function. -/
def convert {α : Type} (conv : List Char → Option ConverterConfig → Except Error α)
    (value : List Char) (config : Option ConverterConfig) : Except Error α :=
  let cfg := config.getD ConverterConfig.default
  let processed_value := if cfg.trim_whitespace then trim value else value
  conv processed_value (some cfg)

/-- The optional-wrapper policy as worded by the spec (§4.3): empty check
first (when `handle_empty`), then the none-literal check (when
`recognize_none_values`, against the lower-cased string and the
none/null/empty literal table), else the inner conversion propagated
unchanged.  Stated independently of `optionFromArgValue` for the
refinement proof. -/
def optionalWrapperPolicySpec {α : Type}
    (innerConv : List Char → Option ConverterConfig → Except Error α)
    (value : List Char) (cfg : ConverterConfig) : Except Error (Option α) :=
  if cfg.handle_empty = true ∧ value = [] then .ok none
  else if cfg.recognize_none_values = true ∧
      (lowercase value = "none".toList ∨ lowercase value = "null".toList ∨
        lowercase value = []) then .ok none
  else
    match innerConv value (some cfg) with
    | .ok v => .ok (some v)
    | .error e => .error e

/-! ## Scanner lemmas -/

/-- Computation rule for `Except` bind on a success value. -/
theorem except_bind_ok {ε α β : Type} (a : α) (f : α → Except ε β) :
    (Except.ok a : Except ε α) >>= f = f a := rfl

/-- Computation rule for `Except` bind on an error value. -/
theorem except_bind_error {ε α β : Type} (e : ε) (f : α → Except ε β) :
    (Except.error e : Except ε α) >>= f = Except.error e := rfl

/-- A one-element monadic fold over `Except` is a single application. -/
theorem except_foldlM_singleton {ε σ α : Type} (f : σ → α → Except ε σ) (b : σ) (c : α) :
    List.foldlM f b [c] = f b c := by
  cases h : f b c <;>
    simp [List.foldlM_cons, List.foldlM_nil, h, except_bind_ok, except_bind_error]

/-- If one step of the scanner succeeds and leaves an empty token buffer,
the consumed character was the list-delimiter (every other arm appends the
character to the buffer). -/
theorem stepChar_ok_current_nil {cfg : TokenizerConfig} {msgc : List Char} {mid acc : ScanAcc}
    {c : Char} (h : stepChar cfg msgc mid c = .ok acc) (hcur : acc.current = []) :
    c = cfg.delimiter := by
  obtain ⟨st, cur, res⟩ := mid
  cases st <;> simp only [stepChar] at h
  case normal =>
    split_ifs at h with h1 h2 h3 h4 <;>
      first
        | assumption
        | (cases h; simp at hcur)
  case escapeSequence => cases h; simp at hcur
  case inSingleQuote =>
    split_ifs at h with h1 h2 <;> (cases h; simp at hcur)
  case inDoubleQuote =>
    split_ifs at h with h1 h2 <;> (cases h; simp at hcur)
  case inBracket => exact Except.noConfusion h

/-- If the whole scan of a non-empty content succeeds with an empty token
buffer, the final content character is the list-delimiter. -/
theorem runScan_current_nil {cfg : TokenizerConfig} {content : List Char} {acc : ScanAcc}
    (hne : content ≠ []) (h : runScan cfg content = .ok acc) (hcur : acc.current = []) :
    content.getLast? = some cfg.delimiter := by
  rcases List.eq_nil_or_concat content with rfl | ⟨l, c, rfl⟩
  · exact absurd rfl hne
  · rw [List.concat_eq_append, List.getLast?_concat]
    have hc : c = cfg.delimiter := by
      rw [runScan, List.concat_eq_append, List.foldlM_append] at h
      cases hmid : List.foldlM (stepChar cfg (l ++ [c])) (⟨.normal, [], []⟩ : ScanAcc) l with
      | error e =>
          rw [hmid, except_bind_error] at h
          exact Except.noConfusion h
      | ok mid =>
          rw [hmid, except_bind_ok, except_foldlM_singleton] at h
          exact stepChar_ok_current_nil h hcur
    rw [hc]

/-- From the normal state with an empty buffer, scanning a run of commas
turns each comma into one completed empty token. -/
theorem foldlM_replicate_comma (msgc : List Char) (k : Nat) (res : List (List Char)) :
    List.foldlM (stepChar TokenizerConfig.default msgc) (⟨.normal, [], res⟩ : ScanAcc)
      (List.replicate k ',') = .ok ⟨.normal, [], res ++ List.replicate k []⟩ := by
  induction k generalizing res with
  | zero => simp only [List.replicate_zero, List.foldlM_nil, List.append_nil]; rfl
  | succ n ih =>
      have hstep : stepChar TokenizerConfig.default msgc (⟨.normal, [], res⟩ : ScanAcc) ',' =
          .ok ⟨.normal, [], res ++ [[]]⟩ := rfl
      rw [List.replicate_succ, List.foldlM_cons, hstep, except_bind_ok, ih (res ++ [[]])]
      simp [List.replicate_succ, List.append_assoc]

/-- `tokenize_arg` on a well-formed bracketed default-configuration input
reduces to the trailing-escape check followed by `split_by_commas` on the
bracket interior. -/
theorem tokenizeArg_bracket_decomp (content : List Char) :
    tokenizeArg TokenizerConfig.default ('[' :: content ++ [']']) =
      (if content.getLast? = some '\\' then
        .error (.InvalidInput
          ("Trailing escape character in: ".toList ++ ('[' :: content ++ [']'])))
      else
        match splitByCommas TokenizerConfig.default content with
        | .ok tokens => .ok ⟨tokens, true⟩
        | .error e => .error e) := by
  have hhead : ('[' :: content ++ [']'] : List Char).head? = some '[' := rfl
  have hlast : ('[' :: content ++ [']'] : List Char).getLast? = some ']' :=
    List.getLast?_concat _
  have hdrop : (('[' :: content ++ [']'] : List Char).drop 1).dropLast = content := by
    simp [List.dropLast_concat]
  rw [tokenizeArg, processBracketed, extractBracketContent]
  simp only [hhead, hlast, hdrop, TokenizerConfig.default, and_self, if_true]
  by_cases hq : content.getLast? = some '\\'
  · simp only [hq, if_true, eq_self_iff_true]
  · simp only [hq, if_false]

/-- If the scan of a non-empty content completes in the `Normal` state,
`split_by_commas` emits the completed tokens, appends the final buffer
(unless it is empty while tokens exist), and appends one empty token
exactly when the content's last character is the delimiter. -/
theorem splitByCommas_runScan_normal {cfg : TokenizerConfig} {content cur : List Char}
    {res : List (List Char)} (hne : content ≠ [])
    (hscan : runScan cfg content = .ok ⟨.normal, cur, res⟩) :
    splitByCommas cfg content =
      .ok ((if !cur.isEmpty || res.isEmpty then res ++ [cur] else res) ++
        (if content.getLast? = some cfg.delimiter then [[]] else [])) := by
  rw [splitByCommas, if_neg (by simpa [List.isEmpty_iff] using hne), hscan]
  by_cases hd : content.getLast? = some cfg.delimiter
  · by_cases hb : (!cur.isEmpty || res.isEmpty) = true
    · simp [hd, hb]
    · simp [hd, hb]
  · by_cases hb : (!cur.isEmpty || res.isEmpty) = true
    · simp [hd, hb]
    · simp [hd, hb]

/-! ## Claim theorems: tokenizer -/

/-- Claim C1 (code-bug evidence): on the bracketed input `[a[b]`, whose
interior contains an open-bracket character reached in the `Normal`
state, `tokenize_arg` succeeds and keeps the bracket as ordinary token
content instead of failing with the nested-brackets error.  No arm of
the scanner ever enters the `InBracket` state, so the `NestedBrackets`
arm of `split_by_commas` is unreachable, contradicting `tokenize_arg`'s
own documented error condition. -/
theorem C1_nested_open_bracket_not_rejected :
    tokenizeArg TokenizerConfig.default "[a[b]".toList =
      .ok ⟨["a[b".toList], true⟩ := rfl

/-- Claim C2: every bracketed input whose scanned content ends mid-escape
(the escape character is its final character, with nothing following —
including when it is preceded by another escape character) is rejected by
`tokenize_arg` with the structural trailing-escape error, carried by the
`InvalidInput` constructor, which is distinct from the
`UnclosedDelimiter` constructor. -/
theorem C2_trailing_escape_is_invalid_input (content : List Char)
    (h : content.getLast? = some '\\') :
    tokenizeArg TokenizerConfig.default ('[' :: content ++ [']']) =
      .error (.InvalidInput
        ("Trailing escape character in: ".toList ++ ('[' :: content ++ [']']))) := by
  rw [tokenizeArg_bracket_decomp, if_pos h]

/-- Witness for C2 at the interior `ab\\`, which ends in two escape
characters (the final escape is itself preceded by an escaped escape). -/
theorem C2_trailing_escape_is_invalid_input_witness :
    ("ab\\\\".toList.getLast? = some '\\') ∧
    tokenizeArg TokenizerConfig.default ('[' :: "ab\\\\".toList ++ [']']) =
      .error (.InvalidInput
        ("Trailing escape character in: ".toList ++ ('[' :: "ab\\\\".toList ++ [']']))) :=
  ⟨by decide, C2_trailing_escape_is_invalid_input "ab\\\\".toList (by decide)⟩

/-- Claim C4 counterexample: an interior whose last two characters are the
escape character followed by the delimiter.  The claim predicts the single
token `\x5c,` with no trailing empty token; `split_by_commas` emits that
token *plus* a trailing empty token, because its trailing-delimiter test
is the purely syntactic `content.ends_with(delimiter)`. -/
theorem C4_escaped_trailing_delimiter_cex :
    splitByCommas TokenizerConfig.default "\\,".toList = .ok ["\\,".toList, []] ∧
    (["\\,".toList, ([] : List Char)] ≠ ["\\,".toList]) :=
  ⟨rfl, by decide⟩

/-- Claim C4 (amended): when the scan of a non-empty interior completes in
the `Normal` state with final accumulated buffer `cur` and completed
tokens `res`, the output is exactly `res` followed by the final
accumulated token `cur` (appended even if empty, unless the scan produced
no tokens at all, i.e. unless `cur` is empty while `res` is not),
followed by an additional trailing empty token if and only if the
interior's final character is the list-delimiter — including when that
delimiter character was consumed as an escaped character, as the `\x5c,`
interior shows; the empty interior yields one empty token, and the output
is never empty. -/
theorem C4_end_of_input_token_emission :
    (∀ (content cur : List Char) (res : List (List Char)), content ≠ [] →
        runScan TokenizerConfig.default content = .ok ⟨.normal, cur, res⟩ →
        splitByCommas TokenizerConfig.default content =
          .ok ((if cur = [] ∧ res ≠ [] then res else res ++ [cur]) ++
            (if content.getLast? = some ',' then [[]] else []))) ∧
    (∀ (content : List Char) (toks : List (List Char)), content ≠ [] →
        splitByCommas TokenizerConfig.default content = .ok toks →
        (toks.getLast? = some ([] : List Char) ↔ content.getLast? = some ',')) ∧
    splitByCommas TokenizerConfig.default [] = .ok [[]] ∧
    splitByCommas TokenizerConfig.default "\\,".toList = .ok ["\\,".toList, []] ∧
    (∀ (content : List Char) (toks : List (List Char)),
        splitByCommas TokenizerConfig.default content = .ok toks → toks ≠ []) := by
  refine ⟨?_, ?_, rfl, rfl, ?_⟩
  · intro content cur res hne hscan
    rw [splitByCommas_runScan_normal hne hscan]
    by_cases hc : cur = [] <;> by_cases hr : res = [] <;>
      simp [hc, hr, TokenizerConfig.default]
  · intro content toks hne hok
    cases hscan : runScan TokenizerConfig.default content with
    | error e =>
        rw [splitByCommas, if_neg (by simpa [List.isEmpty_iff] using hne), hscan] at hok
        exact Except.noConfusion hok
    | ok acc =>
        obtain ⟨st, cur, res⟩ := acc
        cases st
        case normal =>
            have heq := (splitByCommas_runScan_normal hne hscan).symm.trans hok
            have htoks := Except.ok.inj heq
            subst htoks
            by_cases hd : content.getLast? = some ','
            · simp [hd, TokenizerConfig.default, List.getLast?_concat]
            · have hcur : cur ≠ [] := by
                intro hc
                exact hd (by simpa [TokenizerConfig.default] using
                  runScan_current_nil hne hscan hc)
              simp [hd, TokenizerConfig.default, hcur, List.getLast?_concat]
        all_goals
          rw [splitByCommas, if_neg (by simpa [List.isEmpty_iff] using hne), hscan] at hok
          exact Except.noConfusion hok
  · intro content toks hok
    by_cases hne : content = []
    · subst hne
      have h0 : splitByCommas TokenizerConfig.default [] = .ok [[]] := rfl
      have htoks := Except.ok.inj (h0.symm.trans hok)
      subst htoks
      simp
    · cases hscan : runScan TokenizerConfig.default content with
      | error e =>
          rw [splitByCommas, if_neg (by simpa [List.isEmpty_iff] using hne), hscan] at hok
          exact Except.noConfusion hok
      | ok acc =>
          obtain ⟨st, cur, res⟩ := acc
          cases st with
          | normal =>
              have heq := (splitByCommas_runScan_normal hne hscan).symm.trans hok
              have htoks := Except.ok.inj heq
              subst htoks
              by_cases hd : content.getLast? = some ','
              · simp [hd, TokenizerConfig.default]
              · by_cases hb : (!cur.isEmpty || res.isEmpty) = true
                · simp [hd, hb, TokenizerConfig.default]
                · have hres : res ≠ [] := by
                    intro hr
                    simp [hr] at hb
                  simp [hd, hb, TokenizerConfig.default, hres]
          | inSingleQuote =>
              rw [splitByCommas, if_neg (by simpa [List.isEmpty_iff] using hne), hscan] at hok
              exact Except.noConfusion hok
          | inDoubleQuote =>
              rw [splitByCommas, if_neg (by simpa [List.isEmpty_iff] using hne), hscan] at hok
              exact Except.noConfusion hok
          | inBracket =>
              rw [splitByCommas, if_neg (by simpa [List.isEmpty_iff] using hne), hscan] at hok
              exact Except.noConfusion hok
          | escapeSequence =>
              rw [splitByCommas, if_neg (by simpa [List.isEmpty_iff] using hne), hscan] at hok
              exact Except.noConfusion hok

/-- Witness for C4 (amended): the interior `a,b` completes the scan with
buffer `b` and tokens `["a"]`, and the final buffer is emitted, giving
`["a", "b"]` with no trailing empty token; the interior `a,` gives the
token list `["a", ""]`, whose trailing token is empty exactly because the
interior ends with the delimiter. -/
theorem C4_end_of_input_token_emission_witness :
    ("a,b".toList ≠ ([] : List Char)) ∧
    (runScan TokenizerConfig.default "a,b".toList =
      .ok ⟨.normal, "b".toList, ["a".toList]⟩) ∧
    splitByCommas TokenizerConfig.default "a,b".toList =
      .ok ["a".toList, "b".toList] ∧
    ("a,".toList ≠ ([] : List Char)) ∧
    splitByCommas TokenizerConfig.default "a,".toList = .ok ["a".toList, []] ∧
    (["a".toList, ([] : List Char)].getLast? = some ([] : List Char) ↔
      "a,".toList.getLast? = some ',') := by
  refine ⟨by decide, rfl, ?_, by decide, rfl, ?_⟩
  · have h := C4_end_of_input_token_emission.1 "a,b".toList "b".toList ["a".toList]
      (by decide) rfl
    simpa using h
  · exact C4_end_of_input_token_emission.2.1 "a,".toList ["a".toList, []] (by decide) rfl

/-- Claim C5: a bracketed input whose interior consists solely of N
list-delimiters produces exactly N+1 empty-string tokens with the
bracket-expansion flag set; for N = 0 (empty interior) this is the single
empty token. -/
theorem C5_delimiter_only_interior_tokens (n : Nat) :
    tokenizeArg TokenizerConfig.default ('[' :: List.replicate n ',' ++ [']']) =
      .ok ⟨List.replicate (n + 1) [], true⟩ := by
  rw [tokenizeArg_bracket_decomp]
  cases n with
  | zero => rfl
  | succ m =>
      have hlast : (List.replicate (m + 1) ',').getLast? = some ',' := by
        rw [List.replicate_succ']
        exact List.getLast?_concat _
      have hne : List.replicate (m + 1) ',' ≠ ([] : List Char) := by simp
      have hscan : runScan TokenizerConfig.default (List.replicate (m + 1) ',') =
          .ok ⟨.normal, [], List.replicate (m + 1) []⟩ := by
        rw [runScan]
        simpa using foldlM_replicate_comma (List.replicate (m + 1) ',') (m + 1) []
      rw [if_neg (by rw [hlast]; intro hcontra; cases hcontra)]
      rw [splitByCommas_runScan_normal hne hscan]
      have hres : (List.replicate (m + 1) ([] : List Char)).isEmpty = false := by simp
      simp [hlast, hres, TokenizerConfig.default, List.replicate_succ']

/-- Witness for C5 at N = 3: `[,,,]` yields four empty tokens, the law
stated by the spec's testable properties. -/
theorem C5_delimiter_only_interior_tokens_witness :
    tokenizeArg TokenizerConfig.default "[,,,]".toList =
      .ok ⟨[[], [], [], []], true⟩ :=
  C5_delimiter_only_interior_tokens 3

/-! ## Format-detection lemmas -/

/-- A string without the equals sign has no first-equals split. -/
theorem splitAtFirstEq_of_not_mem {s : List Char} (h : '=' ∉ s) :
    splitAtFirstEq s = none := by
  induction s with
  | nil => rfl
  | cons c rest ih =>
      have hc : ¬ c = '=' := fun hce => h (List.mem_cons.mpr (Or.inl hce.symm))
      rw [splitAtFirstEq, if_neg hc, ih (fun hm => h (List.mem_cons_of_mem c hm))]

/-- The first-equals split of `k ++ "=" ++ v` with `=`-free `k` is `(k, v)`. -/
theorem splitAtFirstEq_append {k : List Char} (v : List Char) (h : '=' ∉ k) :
    splitAtFirstEq (k ++ '=' :: v) = some (k, v) := by
  induction k with
  | nil => simp [splitAtFirstEq]
  | cons c rest ih =>
      have hc : ¬ c = '=' := fun hce => h (List.mem_cons.mpr (Or.inl hce.symm))
      rw [List.cons_append, splitAtFirstEq, if_neg hc,
        ih (fun hm => h (List.mem_cons_of_mem c hm))]

/-- Inversion: a successful first-equals split reconstructs the input, and
the key part contains no equals sign. -/
theorem splitAtFirstEq_some {s k v : List Char}
    (h : splitAtFirstEq s = some (k, v)) : s = k ++ '=' :: v ∧ '=' ∉ k := by
  induction s generalizing k v with
  | nil => exact Option.noConfusion h
  | cons c rest ih =>
      rw [splitAtFirstEq] at h
      by_cases hc : c = '='
      · rw [if_pos hc] at h
        cases Option.some.inj h
        subst hc
        simp
      · rw [if_neg hc] at h
        cases hm : splitAtFirstEq rest with
        | none => rw [hm] at h; exact Option.noConfusion h
        | some kv =>
            obtain ⟨k', v'⟩ := kv
            rw [hm] at h
            cases Option.some.inj h
            obtain ⟨hrest, hmem⟩ := ih hm
            constructor
            · rw [List.cons_append, ← hrest]
            · have hc' : ¬ '=' = c := fun hce => hc hce.symm
              simp [List.mem_cons, hc', hmem]

/-- `detect` never produces the sentinel `KeyAll` tag. -/
theorem detect_format_ne_KeyAll (s : List Char) :
    (detect s).format ≠ .KeyAll := by
  rw [detect]
  cases hsp : splitAtFirstEq s with
  | none => simp
  | some kv =>
      obtain ⟨k, v⟩ := kv
      by_cases hv : v.isEmpty <;> simp [hv]

/-! ## Claim theorems: format detection and validation -/

/-- Claim C7: `detect` splits at the first equals sign.  Without `=` the
token is `KeyOnly` with the whole token as key and no value; with a
trailing `=` it is `KeyEquals` with an empty-but-present value; with
content after the first `=` it is `KeyValue` with key before and value
after that `=`. -/
theorem C7_detect_classification :
    (∀ s : List Char, '=' ∉ s → detect s = ⟨.KeyOnly, s, none⟩) ∧
    (∀ k : List Char, '=' ∉ k → detect (k ++ ['=']) = ⟨.KeyEquals, k, some []⟩) ∧
    (∀ k v : List Char, '=' ∉ k → v ≠ [] →
      detect (k ++ '=' :: v) = ⟨.KeyValue, k, some v⟩) := by
  refine ⟨?_, ?_, ?_⟩
  · intro s h
    rw [detect, splitAtFirstEq_of_not_mem h]
  · intro k h
    rw [detect, show (k ++ ['='] : List Char) = k ++ '=' :: [] from rfl,
      splitAtFirstEq_append [] h]
    rfl
  · intro k v h hv
    rw [detect, splitAtFirstEq_append v h]
    simp [List.isEmpty_iff, hv]

/-- Witness for C7 at the spec's round-trip example `USER=admin`. -/
theorem C7_detect_classification_witness :
    ('=' ∉ "USER".toList) ∧ ("admin".toList ≠ ([] : List Char)) ∧
    detect ("USER".toList ++ '=' :: "admin".toList) =
      ⟨.KeyValue, "USER".toList, some "admin".toList⟩ :=
  ⟨by decide, by decide,
    C7_detect_classification.2.2 "USER".toList "admin".toList (by decide) (by decide)⟩

/-- Claim C9: reconstruction invariant of `detect` — a present value means
the input is exactly `key ++ "=" ++ value` with an `=`-free key, an
absent value means the key is the whole input, and an input starting with
`=` yields an empty key. -/
theorem C9_detect_reconstruction (s : List Char) :
    (∀ v, (detect s).value = some v →
      s = (detect s).key ++ '=' :: v ∧ '=' ∉ (detect s).key) ∧
    ((detect s).value = none → (detect s).key = s) ∧
    (∀ t : List Char, (detect ('=' :: t)).key = []) := by
  refine ⟨?_, ?_, ?_⟩
  · intro v hv
    cases hsp : splitAtFirstEq s with
    | none =>
        have hd : detect s = ⟨.KeyOnly, s, none⟩ := by simp [detect, hsp]
        rw [hd] at hv
        exact Option.noConfusion hv
    | some kv =>
        obtain ⟨k, v'⟩ := kv
        obtain ⟨hrest, hmem⟩ := splitAtFirstEq_some hsp
        by_cases hv' : v'.isEmpty
        · have hd : detect s = ⟨.KeyEquals, k, some []⟩ := by
            simp [detect, hsp, hv']
          rw [hd] at hv ⊢
          cases Option.some.inj hv
          rw [List.isEmpty_iff] at hv'
          subst hv'
          exact ⟨hrest, hmem⟩
        · have hd : detect s = ⟨.KeyValue, k, some v'⟩ := by
            simp [detect, hsp, hv']
          rw [hd] at hv ⊢
          cases Option.some.inj hv
          exact ⟨hrest, hmem⟩
  · intro hv
    cases hsp : splitAtFirstEq s with
    | none => simp [detect, hsp]
    | some kv =>
        obtain ⟨k, v'⟩ := kv
        by_cases hv' : v'.isEmpty
        · have hd : detect s = ⟨.KeyEquals, k, some []⟩ := by
            simp [detect, hsp, hv']
          rw [hd] at hv
          exact Option.noConfusion hv
        · have hd : detect s = ⟨.KeyValue, k, some v'⟩ := by
            simp [detect, hsp, hv']
          rw [hd] at hv
          exact Option.noConfusion hv
  · intro t
    rw [detect, show splitAtFirstEq ('=' :: t) = some ([], t) by simp [splitAtFirstEq]]
    by_cases ht : t.isEmpty <;> simp [ht]

/-- Witness for C9 at `USER=admin`: the value is present and the input
reconstructs as key, equals sign, value. -/
theorem C9_detect_reconstruction_witness :
    ((detect "USER=admin".toList).value = some "admin".toList) ∧
    ("USER=admin".toList = (detect "USER=admin".toList).key ++ '=' :: "admin".toList ∧
      '=' ∉ (detect "USER=admin".toList).key) :=
  ⟨by decide, (C9_detect_reconstruction "USER=admin".toList).1 "admin".toList (by decide)⟩

/-- Claim C8: `validate` on a detection result succeeds exactly when the
detected tag equals an allowed entry or some allowed entry is `KeyAll`,
and on failure returns the invalid key-value format error naming the
offending key, the allowed set and the detected tag. -/
theorem C8_validate_iff_allowed (s : List Char) (allowed : List AllowedKeyValueFormats) :
    (validate (detect s) allowed = .ok () ↔
      ((detect s).format ∈ allowed ∨ AllowedKeyValueFormats.KeyAll ∈ allowed)) ∧
    (¬ ((detect s).format ∈ allowed ∨ AllowedKeyValueFormats.KeyAll ∈ allowed) →
      validate (detect s) allowed =
        .error (.InvalidKeyValue ("Invalid format for key ".toList ++ ['\''] ++
          (detect s).key ++ ['\''] ++ ": expected one of ".toList ++
          debugFmtList allowed ++ ", got ".toList ++ (detect s).format.debugFmt))) := by
  have hka := detect_format_ne_KeyAll s
  have hcompat : (detect s).format.is_compatible_with_any allowed = true ↔
      ((detect s).format ∈ allowed ∨ AllowedKeyValueFormats.KeyAll ∈ allowed) := by
    rw [AllowedKeyValueFormats.is_compatible_with_any, List.any_eq_true]
    constructor
    · rintro ⟨b, hb, hc⟩
      rw [AllowedKeyValueFormats.is_compatible_with] at hc
      simp only [Bool.or_eq_true, beq_iff_eq] at hc
      rcases hc with (hc | hc) | hc
      · exact Or.inl (by rw [hc]; exact hb)
      · exact absurd hc hka
      · exact Or.inr (by rw [← hc]; exact hb)
    · rintro (hm | hm)
      · exact ⟨_, hm, by simp [AllowedKeyValueFormats.is_compatible_with]⟩
      · exact ⟨.KeyAll, hm, by simp [AllowedKeyValueFormats.is_compatible_with]⟩
  constructor
  · rw [validate]
    by_cases hc : (detect s).format.is_compatible_with_any allowed = true
    · rw [if_pos hc]
      simp [hcompat.mp hc]
    · rw [if_neg hc]
      constructor
      · intro h
        exact Except.noConfusion h
      · intro hm
        exact absurd (hcompat.mpr hm) hc
  · intro hm
    rw [validate, if_neg (fun hc => hm (hcompat.mp hc))]

/-- Witness for C8 at the failing pair from the source tests: `DEBUG`
detected as `KeyOnly` against the allowed set `[KeyValue]`. -/
theorem C8_validate_iff_allowed_witness :
    (¬ ((detect "DEBUG".toList).format ∈ [AllowedKeyValueFormats.KeyValue] ∨
        AllowedKeyValueFormats.KeyAll ∈ [AllowedKeyValueFormats.KeyValue])) ∧
    validate (detect "DEBUG".toList) [AllowedKeyValueFormats.KeyValue] =
      .error (.InvalidKeyValue ("Invalid format for key ".toList ++ ['\''] ++
        (detect "DEBUG".toList).key ++ ['\''] ++ ": expected one of ".toList ++
        debugFmtList [AllowedKeyValueFormats.KeyValue] ++ ", got ".toList ++
        (detect "DEBUG".toList).format.debugFmt)) :=
  ⟨by decide,
    (C8_validate_iff_allowed "DEBUG".toList [AllowedKeyValueFormats.KeyValue]).2 (by decide)⟩

/-! ## Claim theorems: type conversion chain -/

/-- Claim C3: for every inner conversion, raw string and configuration,
the `Option` instance follows exactly the spec's order — empty check
(when `handle_empty`) without attempting the inner conversion, then the
none-literal check (when `recognize_none_values`), then the inner
conversion with its outcome propagated unchanged; and with
`recognize_none_values` unset, `none` converts to a present `"none"`
string. -/
theorem C3_option_wrapper_policy {α : Type}
    (innerConv : List Char → Option ConverterConfig → Except Error α)
    (value : List Char) (cfg : ConverterConfig) :
    optionFromArgValue innerConv value (some cfg) =
      optionalWrapperPolicySpec innerConv value cfg ∧
    optionFromArgValue stringFromArgValue "none".toList
      (some ⟨true, true, false⟩) = .ok (some "none".toList) := by
  refine ⟨?_, rfl⟩
  have h1 : (cfg.handle_empty && value.isEmpty) = true ↔
      (cfg.handle_empty = true ∧ value = []) := by
    simp [List.isEmpty_iff]
  have h2 : (cfg.recognize_none_values &&
        ConversionConfig.default.none_values.contains (lowercase value)) = true ↔
      (cfg.recognize_none_values = true ∧
        (lowercase value = "none".toList ∨ lowercase value = "null".toList ∨
          lowercase value = [])) := by
    simp [ConversionConfig.default, List.contains_iff_exists_mem_beq]
  rw [optionFromArgValue, optionalWrapperPolicySpec]
  simp only [Option.getD_some]
  by_cases hp1 : cfg.handle_empty = true ∧ value = []
  · rw [if_pos (h1.mpr hp1), if_pos hp1]
  · rw [if_neg (fun hb => hp1 (h1.mp hb)), if_neg hp1]
    by_cases hp2 : cfg.recognize_none_values = true ∧
        (lowercase value = "none".toList ∨ lowercase value = "null".toList ∨
          lowercase value = [])
    · rw [if_pos (h2.mpr hp2), if_pos hp2]
    · rw [if_neg (fun hb => hp2 (h2.mp hb)), if_neg hp2]

/-- Witness for C3: the refinement instantiated at the integer conversion
on the raw string `7` with the default configuration. -/
theorem C3_option_wrapper_policy_witness :
    optionFromArgValue i32FromArgValue "7".toList (some ConverterConfig.default) =
      optionalWrapperPolicySpec i32FromArgValue "7".toList ConverterConfig.default :=
  (C3_option_wrapper_policy i32FromArgValue "7".toList ConverterConfig.default).1

/-- Claim C10: converting the empty string through the `Option` instance
with `handle_empty = false` but `recognize_none_values = true` still
yields the absent value without attempting the inner conversion, because
the none-literal table contains the empty string. -/
theorem C10_empty_none_without_handle_empty {α : Type}
    (innerConv : List Char → Option ConverterConfig → Except Error α)
    (cfg : ConverterConfig) (h1 : cfg.handle_empty = false)
    (h2 : cfg.recognize_none_values = true) :
    optionFromArgValue innerConv [] (some cfg) = .ok none ∧
    ([] : List Char) ∈ ConversionConfig.default.none_values := by
  refine ⟨?_, by decide⟩
  rw [optionFromArgValue]
  simp [h1, h2, ConversionConfig.default, lowercase]

/-- Witness for C10 at the string inner conversion with the configuration
`trim, no empty handling, recognize none`. -/
theorem C10_empty_none_without_handle_empty_witness :
    ((⟨true, false, true⟩ : ConverterConfig).handle_empty = false) ∧
    ((⟨true, false, true⟩ : ConverterConfig).recognize_none_values = true) ∧
    (optionFromArgValue stringFromArgValue [] (some ⟨true, false, true⟩) = .ok none ∧
      ([] : List Char) ∈ ConversionConfig.default.none_values) :=
  ⟨rfl, rfl,
    C10_empty_none_without_handle_empty stringFromArgValue ⟨true, false, true⟩ rfl rfl⟩

/-- Claim C6: the top-level `convert` with `trim_whitespace` set hands the
trimmed string to the type-specific conversion (hence before any
optional-wrapper empty/none check), a whitespace-only string trims to the
empty string (triggering the empty-handling path, as the `Option` example
shows), and the integer laws `convert("  123  ") = convert("123") = 123`
and `convert("abc")` failing hold. -/
theorem C6_convert_trims_first :
    (∀ (α : Type) (conv : List Char → Option ConverterConfig → Except Error α)
        (value : List Char) (cfg : ConverterConfig), cfg.trim_whitespace = true →
        convert conv value (some cfg) = conv (trim value) (some cfg)) ∧
    (∀ value : List Char, (∀ c ∈ value, c.isWhitespace) → trim value = []) ∧
    convert (optionFromArgValue i32FromArgValue) "   ".toList none = .ok none ∧
    convert i32FromArgValue "  123  ".toList none = .ok 123 ∧
    convert i32FromArgValue "123".toList none = .ok 123 ∧
    convert i32FromArgValue "abc".toList none = .error (.InvalidIntValue "abc".toList) := by
  refine ⟨?_, ?_, rfl, rfl, rfl, rfl⟩
  · intro α conv value cfg h
    rw [convert]
    simp [h]
  · intro value h
    rw [trim]
    have h1 : value.dropWhile Char.isWhitespace = [] := by
      rw [List.dropWhile_eq_nil_iff]
      exact fun x hx => h x hx
    simp [h1]

/-- Witness for C6: the trim-first law instantiated at the integer
conversion on `"  7 "` with the default configuration. -/
theorem C6_convert_trims_first_witness :
    (ConverterConfig.default.trim_whitespace = true) ∧
    convert i32FromArgValue "  7 ".toList (some ConverterConfig.default) =
      i32FromArgValue (trim "  7 ".toList) (some ConverterConfig.default) :=
  ⟨rfl, C6_convert_trims_first.1 Int i32FromArgValue "  7 ".toList ConverterConfig.default rfl⟩

end PamArgs
